import Mathlib

/-!
Shallow embedding of the binance-di streaming ingestion pipeline
(source: binance-di.py) and verification of its specification.

The embedding models:
  - payload projection (process_trade_payload and friends) over decoded
    JSON-like values;
  - the file-writer subsystem (write_to_file, flush_buffer,
    flush_all_buffers) as pure state transformers over explicit
    WriterState values, with the produced part files recorded in the
    state;
  - the sink dispatcher (data_consumer) with explicit fault injection
    for the store sink and for line-format file writes, reflecting which
    exceptions the source catches and which it lets propagate;
  - the feed producer (stream_producer) as a function from a trace of
    feed events to a trace of producer actions;
  - the shutdown sequence of main (cancel producers, queue join, cancel
    and await consumer, flush_all_buffers).

Machine-level I O, the WebSocket transport, Redis and the pandas
serialization are external collaborators: a store append or file write
is modelled by its effect on the recorded state, together with a
success flag injected by the environment where the source code can
observe a failure.
-/

namespace BinanceDI

/-- Configuration constant BATCH_SIZE_FOR_COLUMNAR from the source. -/
def BATCH_SIZE_FOR_COLUMNAR : Nat := 10000

/-- Configuration constant FILE_ROTATION_LINE_COUNT from the source. -/
def FILE_ROTATION_LINE_COUNT : Nat := 100000

/-! ## Python value model -/

/-- A decoded JSON scalar as handled by the pipeline.  Python's None
(absent dictionary key) is `null`. -/
inductive JValue where
  | null
  | str (s : String)
  | jnum (n : Int)
  | jbool (b : Bool)
deriving DecidableEq

/-- Python str(value), as applied to a value pulled out of a decoded
message (used for the is_buyer_maker field). -/
def pyStr : JValue → String
  | .null => "None"
  | .str s => s
  | .jnum n => toString n
  | .jbool true => "True"
  | .jbool false => "False"

/-- A raw decoded message: dictionary get semantics, `null` for an
absent key, mirroring data.get(k) in the source. -/
def Raw := String → JValue

/-- Python str.lower for the ASCII symbols the program handles
(symbol.lower() in the source). -/
def lowerChar (c : Char) : Char :=
  if 'A' ≤ c ∧ c ≤ 'Z' then Char.ofNat (c.toNat + 32) else c

/-- See `lowerChar`; lowercases a whole string. -/
def pyLower (s : String) : String :=
  ⟨s.data.map lowerChar⟩

/-- A record produced by a payload processor: an ordered field-name to
value mapping (a Python dict literal preserves insertion order). -/
structure Record where
  fields : List (String × JValue)
deriving DecidableEq

/-- list(payload.keys()) in the source. -/
def Record.keys (r : Record) : List String := r.fields.map Prod.fst

/-- payload.get(h) in the source: the stored value, or None (`null`)
when the field is absent. -/
def Record.get (r : Record) (k : String) : JValue :=
  match r.fields.find? (fun p => p.1 == k) with
  | some p => p.2
  | none => .null

/-- process_trade_payload from the source. -/
def process_trade_payload (data : Raw) : Record :=
  ⟨[("event_time", data "E"), ("price", data "p"),
    ("quantity", data "q"), ("trade_time", data "T"),
    ("is_buyer_maker", .str (pyStr (data "m")))]⟩

/-- process_ticker_payload from the source. -/
def process_ticker_payload (data : Raw) : Record :=
  ⟨[("price_change", data "p"), ("price_change_percent", data "P"),
    ("last_price", data "c"), ("high_price", data "h"),
    ("low_price", data "l"), ("total_volume_asset", data "v"),
    ("total_volume_quote", data "q"), ("event_time", data "E")]⟩

/-! ## Output formats and file naming -/

/-- The four output formats accepted by the --output option. -/
inductive Fmt where
  | json
  | csv
  | parquet
  | orc
deriving DecidableEq

/-- The file extension each format uses in the part-file name: the
line branch uses fmt when fmt is csv and jsonl otherwise, the columnar
branch uses fmt itself. -/
def Fmt.ext : Fmt → String
  | .json => "jsonl"
  | .csv => "csv"
  | .parquet => "parquet"
  | .orc => "orc"

/-- The part-file name built by write_to_file and flush_buffer:
output_dir, slash, stream_key, underscore, lowered symbol, underscore,
part number, dot, extension. -/
def partFileName (output_dir stream_key symbol_lower : String)
    (part : Nat) (fmt : Fmt) : String :=
  output_dir ++ "/" ++ stream_key ++ "_" ++ symbol_lower ++ "_" ++
    Nat.repr part ++ "." ++ fmt.ext

/-! ## Line-format writer (json and csv branch of write_to_file) -/

/-- One line of an on-disk line-format part file. -/
inductive FileLine where
  | headerRow (cols : List String)
  | jsonRow (r : Record)
  | csvRow (vals : List JValue)
deriving DecidableEq

/-- The mutable state of one line-format writer entry, together with
the part files it has produced.  handleOpen models the truthiness of
state handle; part, lines and header model the keys of the same names;
files records, most recent first, every part file opened in this run as
(part number, file name, lines written so far).  The csv writer object
is a view on the handle and needs no state of its own. -/
structure LineState where
  handleOpen : Bool := false
  part : Nat := 0
  lines : Nat := 0
  header : List String := []
  files : List (Nat × String × List FileLine) := []
deriving DecidableEq

/-- Append one line to the currently open (most recently opened) part
file. -/
def appendLine (files : List (Nat × String × List FileLine))
    (l : FileLine) : List (Nat × String × List FileLine) :=
  match files with
  | [] => []
  | (p, n, ls) :: rest => (p, n, ls ++ [l]) :: rest

/-- Append several lines to the currently open part file. -/
def appendAll (files : List (Nat × String × List FileLine))
    (ls : List FileLine) : List (Nat × String × List FileLine) :=
  ls.foldl appendLine files

/-- The json and csv branch of write_to_file, for one record.  If no
handle is open: increment the part counter, open the next part file
(appending a header row when the format is csv, which also counts
toward the line counter).  Then append the data row, bump the line
counter, and when the counter has reached FILE_ROTATION_LINE_COUNT
close the handle so the next write opens a new part.  Only invoked with
fmt json or csv. -/
def lineWrite (output_dir stream_key symbol : String) (fmt : Fmt)
    (payload : Record) (state : LineState) : LineState :=
  let state :=
    if state.handleOpen then state
    else
      let part := state.part + 1
      let filename := partFileName output_dir stream_key (pyLower symbol) part fmt
      let st : LineState :=
        { state with handleOpen := true, part := part, lines := 0,
                     files := (part, filename, []) :: state.files }
      if fmt = Fmt.csv then
        let hdr := payload.keys
        { st with header := hdr,
                  files := appendLine st.files (.headerRow hdr),
                  lines := st.lines + 1 }
      else st
  let state :=
    if fmt = Fmt.json then
      { state with files := appendLine state.files (.jsonRow payload),
                   lines := state.lines + 1 }
    else
      { state with
          files := appendLine state.files
            (.csvRow (state.header.map payload.get)),
          lines := state.lines + 1 }
  if FILE_ROTATION_LINE_COUNT ≤ state.lines then
    { state with handleOpen := false }
  else state

/-- Feed a sequence of records, in order, to one line-format writer. -/
def lineRun (output_dir stream_key symbol : String) (fmt : Fmt)
    (rs : List Record) (s : LineState) : LineState :=
  rs.foldl (fun st r => lineWrite output_dir stream_key symbol fmt r st) s

example :
    (lineRun "data" "trades" "BTCUSDT" .json
      [⟨[("price", .str "1")]⟩, ⟨[("price", .str "2")]⟩] {}) =
    { handleOpen := true, part := 1, lines := 2, header := [],
      files := [(1, "data/trades_btcusdt_1.jsonl",
        [.jsonRow ⟨[("price", .str "1")]⟩,
         .jsonRow ⟨[("price", .str "2")]⟩])] } := by
  decide

example :
    (lineRun "data" "trades" "BTCUSDT" .csv
      [⟨[("price", .str "1")]⟩, ⟨[("price", .str "2")]⟩] {}) =
    { handleOpen := true, part := 1, lines := 3, header := ["price"],
      files := [(1, "data/trades_btcusdt_1.csv",
        [.headerRow ["price"], .csvRow [.str "1"], .csvRow [.str "2"]])] } := by
  decide

/-! ## Columnar writer (parquet and orc branch, flush_buffer) -/

/-- State of one columnar writer entry.  buffer and part model the
state keys of the same names; flushed records, in order, every part
file successfully written as (part number, file name, rows); errors
records the file names whose write raised (the except branch of
flush_buffer, reported to logging). -/
structure ColState where
  buffer : List Record := []
  part : Nat := 0
  flushed : List (Nat × String × List Record) := []
  errors : List String := []
deriving DecidableEq

/-- flush_buffer from the source.  When the buffer is empty, return at
once.  Otherwise: snapshot the buffer as the data frame, clear the
buffer, increment the part counter, build the file name, then attempt
the write; ok tells whether the underlying pandas write succeeds.  On
failure the error is caught and reported, and the already-cleared
buffer stays cleared. -/
def flush_buffer (output_dir stream_key symbol : String) (fmt : Fmt)
    (ok : Bool) (s : ColState) : ColState :=
  if s.buffer = [] then s
  else
    let df := s.buffer
    let s := { s with buffer := [], part := s.part + 1 }
    let filename := partFileName output_dir stream_key (pyLower symbol) s.part fmt
    if ok then { s with flushed := s.flushed ++ [(s.part, filename, df)] }
    else { s with errors := s.errors ++ [filename] }

/-- The parquet and orc branch of write_to_file: append the record to
the buffer; when the buffer has reached BATCH_SIZE_FOR_COLUMNAR, flush
it (ok is the success flag of that flush, if one happens). -/
def colWrite (output_dir stream_key symbol : String) (fmt : Fmt)
    (ok : Bool) (payload : Record) (s : ColState) : ColState :=
  let s := { s with buffer := s.buffer ++ [payload] }
  if BATCH_SIZE_FOR_COLUMNAR ≤ s.buffer.length then
    flush_buffer output_dir stream_key symbol fmt ok s
  else s

/-- Feed a sequence of records to one columnar writer, every flush
succeeding. -/
def colRun (output_dir stream_key symbol : String) (fmt : Fmt)
    (rs : List Record) (s : ColState) : ColState :=
  rs.foldl (fun st r => colWrite output_dir stream_key symbol fmt true r st) s

/-- One operation on a columnar writer state: an ingested record whose
possible flush succeeds or fails as ok says, or an explicit flush (as
invoked by flush_all_buffers). -/
inductive ColOp where
  | write (ok : Bool) (r : Record)
  | doFlush (ok : Bool)
deriving DecidableEq

/-- Run one columnar operation. -/
def colStep (output_dir stream_key symbol : String) (fmt : Fmt)
    (s : ColState) : ColOp → ColState
  | .write ok r => colWrite output_dir stream_key symbol fmt ok r s
  | .doFlush ok => flush_buffer output_dir stream_key symbol fmt ok s

/-- Run a sequence of columnar operations. -/
def colRunOps (output_dir stream_key symbol : String) (fmt : Fmt)
    (ops : List ColOp) (s : ColState) : ColState :=
  ops.foldl (colStep output_dir stream_key symbol fmt) s

/-! ## Dispatcher (data_consumer) and writers map -/

/-- The writer_key string stream_key underscore lowered-symbol
underscore fmt, represented by its three components (the symbols the
program handles contain no underscore, so the components determine the
string and conversely). -/
structure WriterKey where
  stream_key : String
  symbol_lower : String
  fmt : Fmt
deriving DecidableEq

/-- A value of the file_writers dictionary: line-format or columnar
state, as fixed by the fmt component of its key. -/
inductive WState where
  | line (s : LineState)
  | col (s : ColState)
deriving DecidableEq

/-- The file_writers dictionary, insertion ordered. -/
abbrev Writers := List (WriterKey × WState)

/-- Dictionary lookup on the writers map. -/
def getW (ws : Writers) (k : WriterKey) : Option WState :=
  (List.find? (fun p => p.1 == k) ws).map (·.2)

/-- Dictionary store on the writers map: update in place when the key
exists, append otherwise. -/
def setW (ws : Writers) (k : WriterKey) (v : WState) : Writers :=
  if List.any ws (fun p => p.1 == k) then
    List.map (fun p => if p.1 == k then (k, v) else p) ws
  else ws ++ [(k, v)]

/-- The relevant configuration fields of the parsed arguments. -/
structure Args where
  print_any : Bool := false
  silent : Bool := false
  output : Option (List Fmt) := none
  output_dir : String := "data"
deriving DecidableEq

/-- Environment-injected sink outcomes for one tuple: whether the
store append (redis xadd) succeeds, whether a line-format file
operation (open or write) succeeds for a given format, and whether a
columnar flush write succeeds. -/
structure Faults where
  store_ok : Bool := true
  line_ok : Fmt → Bool := fun _ => true
  col_flush_ok : Bool := true

/-- One tuple travelling through the queue: (stream_key, symbol,
payload). -/
structure EventTuple where
  stream_key : String
  symbol : String
  payload : Record
deriving DecidableEq

/-- write_to_file for one format.  The columnar branch never raises
(a flush failure is caught inside flush_buffer); the line branch
raises when the environment makes its file operation fail, modelled by
the error case.  On the error case the map is returned as it was
before the call; the exception then propagates to the caller. -/
def write_to_fileE (faults : Faults) (args : Args)
    (stream_key symbol : String) (payload : Record) (fmt : Fmt)
    (writers : Writers) : Except Unit Writers :=
  let writer_key : WriterKey := ⟨stream_key, pyLower symbol, fmt⟩
  match fmt with
  | .parquet | .orc =>
      let st := match getW writers writer_key with
        | some (.col s) => s
        | _ => {}
      .ok (setW writers writer_key
        (.col (colWrite args.output_dir stream_key symbol fmt
          faults.col_flush_ok payload st)))
  | _ =>
      if faults.line_ok fmt then
        let st := match getW writers writer_key with
          | some (.line s) => s
          | _ => {}
        .ok (setW writers writer_key
          (.line (lineWrite args.output_dir stream_key symbol fmt payload st)))
      else .error ()

/-- Outcome of the data_consumer body for one dequeued tuple: either
task_done was reached, or an exception other than CancelledError
escaped the try block (which only catches CancelledError), killing the
consumer coroutine. -/
inductive DispatchResult where
  | done (w : Writers)
  | raised (w : Writers)

/-- The body of the data_consumer loop for one tuple: console sink
(modelled as succeeding; the BrokenPipeError shutdown trigger is out
of scope here), then the store sink when a redis client exists (an
xadd failure raises), then one write_to_file call per requested
output format (a line-format failure raises), then task_done. -/
def dispatchOne (faults : Faults) (redis_enabled : Bool) (args : Args)
    (t : EventTuple) (writers : Writers) : DispatchResult :=
  match t with
  | ⟨stream_key, symbol, payload⟩ =>
    if redis_enabled && !faults.store_ok then .raised writers
    else
      match args.output with
      | none => .done writers
      | some fmts =>
          match fmts.foldlM
              (fun w fmt =>
                write_to_fileE faults args stream_key symbol payload fmt w)
              writers with
          | .ok w => .done w
          | .error _ => .raised writers

/-- The data_consumer loop over a sequence of dequeued tuples.
Returns the final writers map, the list of tuples for which task_done
was called (in order), and whether the loop was killed by an uncaught
exception before the input was exhausted. -/
def consumerRun (faults : Faults) (redis_enabled : Bool) (args : Args)
    (ts : List EventTuple) (w : Writers) :
    Writers × List EventTuple × Bool :=
  match ts with
  | [] => (w, [], false)
  | t :: rest =>
      match dispatchOne faults redis_enabled args t w with
      | .done w1 =>
          let r := consumerRun faults redis_enabled args rest w1
          (r.1, t :: r.2.1, r.2.2)
      | .raised w1 => (w1, [], true)

/-! ## Producer (stream_producer) -/

/-- One event a feed connection can deliver to the producer: a message
that decodes as JSON, a message on which json.loads raises, or a lost
or failed connection. -/
inductive FeedEvent where
  | msg (raw : Raw)
  | bad_message
  | conn_lost

/-- One observable action of the producer. -/
inductive ProducerAction where
  | put_tuple (t : EventTuple)
  | reconnect_delay (secs : Nat)
  | reconnect
  | finished

/-- stream_producer over a trace of feed events, carrying the running
sample_count.  A decoded message is projected and enqueued, then, when
a nonzero sample cap is configured, the counter is bumped and the
producer returns upon reaching the cap.  A decode failure or a lost
connection is caught by the same except clause: report, sleep five
seconds, reconnect, continue. -/
def producerRun (symbol stream_key : String) (process_func : Raw → Record)
    (samples : Option Nat) :
    List FeedEvent → Nat → List ProducerAction
  | [], _ => []
  | .msg raw :: rest, count =>
      let payload := process_func raw
      let put := ProducerAction.put_tuple ⟨stream_key, symbol, payload⟩
      match samples with
      | some k =>
          if k ≠ 0 then
            if k ≤ count + 1 then [put, .finished]
            else put :: producerRun symbol stream_key process_func samples rest (count + 1)
          else put :: producerRun symbol stream_key process_func samples rest count
      | none => put :: producerRun symbol stream_key process_func samples rest count
  | .bad_message :: rest, count =>
      .reconnect_delay 5 :: .reconnect ::
        producerRun symbol stream_key process_func samples rest count
  | .conn_lost :: rest, count =>
      .reconnect_delay 5 :: .reconnect ::
        producerRun symbol stream_key process_func samples rest count

/-! ## Shutdown (the finally block of main, plus flush_all_buffers) -/

/-- flush_all_buffers from the source: walk the writers map and flush
every columnar entry (the writer_key string ends in parquet or orc
exactly when its fmt component is parquet or orc); the symbol stored in
the key is already lowercase, as recovered by rsplit in the source.
Every final flush write is taken to succeed. -/
def flush_all_buffers (args : Args) (ws : Writers) : Writers :=
  List.map (fun p =>
    match p.2 with
    | .col s =>
        (p.1, WState.col (flush_buffer args.output_dir p.1.stream_key
          p.1.symbol_lower p.1.fmt true s))
    | st => (p.1, st)) ws

/-- The state of the ingestion queue at the moment shutdown begins:
the items still enqueued (in order) and the count of puts not yet
matched by task_done, which is what join waits on. -/
structure QueueState where
  items : List EventTuple
  unfinished : Nat
deriving DecidableEq

/-- The steps of the shutdown sequence in the finally block of main. -/
inductive ShutdownStep where
  | cancel_producers
  | queue_join
  | cancel_consumer
  | await_consumer
  | flush_all
deriving DecidableEq

/-- The finally block of main: cancel every producer task (so no
further put happens), wait on join while the consumer drains the queue
(every task_done decrements the unfinished count), cancel and await
the consumer, then, when file output is configured, flush all buffers.
Returns the ordered step trace, the final writers map, the tuples the
consumer processed during the drain, and the unfinished count when
join resolved.  Sinks are taken to succeed during the drain. -/
def shutdownRun (redis_enabled : Bool) (args : Args) (q : QueueState)
    (w : Writers) :
    List ShutdownStep × Writers × List EventTuple × Nat :=
  let r := consumerRun {} redis_enabled args q.items w
  let w2 := if args.output.isSome then flush_all_buffers args r.1 else r.1
  ([.cancel_producers, .queue_join, .cancel_consumer, .await_consumer] ++
     (if args.output.isSome then [.flush_all] else []),
   w2, r.2.1, q.unfinished - r.2.1.length)

/-! ## Decimal representation facts (part-file names are injective in
the part number) -/

/-- Numeric value of a decimal digit character. -/
def digitVal (c : Char) : Nat := c.toNat - 48

/-- Value of a list of decimal digit characters, most significant
first. -/
def decVal (l : List Char) : Nat :=
  l.foldl (fun a c => 10 * a + digitVal c) 0

theorem decVal_append (xs : List Char) (c : Char) :
    decVal (xs ++ [c]) = 10 * decVal xs + digitVal c := by
  simp [decVal, List.foldl_append]

theorem digitVal_digitChar : ∀ d : Nat, d < 10 →
    digitVal (Nat.digitChar d) = d := by
  decide

theorem toDigitsCore_acc (b : Nat) :
    ∀ (fuel n : Nat) (acc : List Char),
      Nat.toDigitsCore b fuel n acc = Nat.toDigitsCore b fuel n [] ++ acc := by
  intro fuel
  induction fuel with
  | zero => intro n acc; simp [Nat.toDigitsCore]
  | succ f ih =>
      intro n acc
      simp only [Nat.toDigitsCore]
      by_cases h : n / b = 0
      · simp [h]
      · rw [if_neg h, if_neg h, ih (n / b) [Nat.digitChar (n % b)],
          ih (n / b) (Nat.digitChar (n % b) :: acc), List.append_assoc]
        rfl

theorem decVal_toDigitsCore :
    ∀ (fuel n : Nat), n < 10 ^ fuel →
      decVal (Nat.toDigitsCore 10 fuel n []) = n := by
  intro fuel
  induction fuel with
  | zero =>
      intro n hn
      interval_cases n
      simp [Nat.toDigitsCore, decVal]
  | succ f ih =>
      intro n hn
      simp only [Nat.toDigitsCore]
      by_cases h : n / 10 = 0
      · have hlt : n < 10 := by omega
        rw [if_pos h, Nat.mod_eq_of_lt hlt]
        show 10 * 0 + digitVal (Nat.digitChar n) = n
        rw [digitVal_digitChar n hlt]
        omega
      · have hdiv : n / 10 < 10 ^ f := by
          apply Nat.div_lt_of_lt_mul
          calc n < 10 ^ (f + 1) := hn
            _ = 10 * 10 ^ f := by ring
        rw [if_neg h, toDigitsCore_acc, decVal_append, ih (n / 10) hdiv,
          digitVal_digitChar (n % 10) (Nat.mod_lt n (by omega))]
        omega

theorem decVal_repr (n : Nat) : decVal (Nat.repr n).data = n := by
  have h1 : Nat.repr n = (Nat.toDigits 10 n).asString := rfl
  have h2 : (Nat.toDigits 10 n).asString.data = Nat.toDigits 10 n := rfl
  rw [h1, h2]
  exact decVal_toDigitsCore (n + 1) n
    (lt_of_lt_of_le (Nat.lt_pow_self (by omega) n)
      (Nat.pow_le_pow_right (by omega) (Nat.le_succ n)))

theorem natRepr_injective : Function.Injective Nat.repr := by
  intro m n h
  have := congrArg (fun s => decVal s.data) h
  simpa [decVal_repr] using this

theorem partFileName_inj (output_dir stream_key symbol_lower : String)
    (fmt : Fmt) {p q : Nat}
    (h : partFileName output_dir stream_key symbol_lower p fmt =
         partFileName output_dir stream_key symbol_lower q fmt) : p = q := by
  apply natRepr_injective
  have hd := congrArg String.data h
  simp only [partFileName, String.data_append, List.append_assoc] at hd
  have h1 := List.append_cancel_left hd
  have h2 := List.append_cancel_left h1
  have h3 := List.append_cancel_left h2
  have h4 := List.append_cancel_left h3
  have h5 := List.append_cancel_left h4
  have h6 := List.append_cancel_left h5
  exact String.ext (List.append_cancel_right h6)

/-! ## Line-writer structural lemmas -/

theorem appendAll_nil (fs : List (Nat × String × List FileLine)) :
    appendAll fs [] = fs := rfl

theorem appendAll_cons (fs : List (Nat × String × List FileLine))
    (l : FileLine) (ls : List FileLine) :
    appendAll fs (l :: ls) = appendAll (appendLine fs l) ls := rfl

theorem appendLine_head (p : Nat) (nm : String) (init : List FileLine)
    (fs : List (Nat × String × List FileLine)) (l : FileLine) :
    appendLine ((p, nm, init) :: fs) l = (p, nm, init ++ [l]) :: fs := rfl

theorem appendAll_head (p : Nat) (nm : String) (init : List FileLine)
    (fs : List (Nat × String × List FileLine)) (ls : List FileLine) :
    appendAll ((p, nm, init) :: fs) ls = (p, nm, init ++ ls) :: fs := by
  induction ls generalizing init with
  | nil => simp [appendAll]
  | cons l ls ih =>
      rw [appendAll_cons, appendLine_head, ih]
      simp

theorem lineWrite_json_open (d k y : String) (r : Record) (s : LineState)
    (ho : s.handleOpen = true) :
    lineWrite d k y .json r s =
      (if FILE_ROTATION_LINE_COUNT ≤ s.lines + 1 then
        { s with files := appendLine s.files (.jsonRow r),
                 lines := s.lines + 1, handleOpen := false }
      else
        { s with files := appendLine s.files (.jsonRow r),
                 lines := s.lines + 1 }) := by
  simp [lineWrite, ho]

theorem lineWrite_csv_open (d k y : String) (r : Record) (s : LineState)
    (ho : s.handleOpen = true) :
    lineWrite d k y .csv r s =
      (if FILE_ROTATION_LINE_COUNT ≤ s.lines + 1 then
        { s with files := appendLine s.files (.csvRow (s.header.map r.get)),
                 lines := s.lines + 1, handleOpen := false }
      else
        { s with files := appendLine s.files (.csvRow (s.header.map r.get)),
                 lines := s.lines + 1 }) := by
  simp [lineWrite, ho]

theorem lineWrite_json_fresh (d k y : String) (r : Record) (s : LineState)
    (hc : s.handleOpen = false) :
    lineWrite d k y .json r s =
      { s with handleOpen := true, part := s.part + 1, lines := 1,
               files := (s.part + 1, partFileName d k (pyLower y) (s.part + 1) .json,
                         [.jsonRow r]) :: s.files } := by
  simp [lineWrite, hc, FILE_ROTATION_LINE_COUNT, appendLine]

theorem lineWrite_csv_fresh (d k y : String) (r : Record) (s : LineState)
    (hc : s.handleOpen = false) :
    lineWrite d k y .csv r s =
      { s with handleOpen := true, part := s.part + 1, lines := 2,
               header := r.keys,
               files := (s.part + 1, partFileName d k (pyLower y) (s.part + 1) .csv,
                         [.headerRow r.keys, .csvRow (r.keys.map r.get)]) :: s.files } := by
  simp [lineWrite, hc, FILE_ROTATION_LINE_COUNT, appendLine]

theorem lineRun_json_open (d k y : String) (rs : List Record) (s : LineState)
    (ho : s.handleOpen = true) (hlt : s.lines < FILE_ROTATION_LINE_COUNT)
    (hle : s.lines + rs.length ≤ FILE_ROTATION_LINE_COUNT) :
    lineRun d k y .json rs s =
      { s with
          handleOpen := decide (s.lines + rs.length < FILE_ROTATION_LINE_COUNT),
          lines := s.lines + rs.length,
          files := appendAll s.files (rs.map .jsonRow) } := by
  induction rs generalizing s with
  | nil =>
      simp only [lineRun, List.foldl_nil, List.length_nil, Nat.add_zero,
        List.map_nil, appendAll_nil]
      rw [decide_eq_true hlt]
      cases s
      simp_all
  | cons r rs ih =>
      show lineRun d k y .json rs (lineWrite d k y .json r s) = _
      rw [lineWrite_json_open d k y r s ho]
      by_cases hrot : FILE_ROTATION_LINE_COUNT ≤ s.lines + 1
      · have hrs : rs = [] := by
          have : rs.length = 0 := by
            simp only [List.length_cons] at hle; omega
          exact List.length_eq_zero.mp this
        subst hrs
        rw [if_pos hrot]
        simp only [lineRun, List.foldl_nil, List.map_cons, List.map_nil,
          List.length_cons, List.length_nil]
        rw [decide_eq_false (by omega)]
        rfl
      · rw [if_neg hrot]
        have h1 : s.lines + 1 < FILE_ROTATION_LINE_COUNT := by omega
        have h2 : s.lines + 1 + rs.length ≤ FILE_ROTATION_LINE_COUNT := by
          simp only [List.length_cons] at hle; omega
        rw [ih { s with lines := s.lines + 1,
                        files := appendLine s.files (.jsonRow r) } ho h1 h2]
        simp only [List.length_cons, List.map_cons, appendAll_cons]
        cases s
        simp_all
        omega

theorem lineRun_csv_open (d k y : String) (rs : List Record) (s : LineState)
    (ho : s.handleOpen = true) (hlt : s.lines < FILE_ROTATION_LINE_COUNT)
    (hle : s.lines + rs.length ≤ FILE_ROTATION_LINE_COUNT) :
    lineRun d k y .csv rs s =
      { s with
          handleOpen := decide (s.lines + rs.length < FILE_ROTATION_LINE_COUNT),
          lines := s.lines + rs.length,
          files := appendAll s.files
            (rs.map (fun r => .csvRow (s.header.map r.get))) } := by
  induction rs generalizing s with
  | nil =>
      simp only [lineRun, List.foldl_nil, List.length_nil, Nat.add_zero,
        List.map_nil, appendAll_nil]
      rw [decide_eq_true hlt]
      cases s
      simp_all
  | cons r rs ih =>
      show lineRun d k y .csv rs (lineWrite d k y .csv r s) = _
      rw [lineWrite_csv_open d k y r s ho]
      by_cases hrot : FILE_ROTATION_LINE_COUNT ≤ s.lines + 1
      · have hrs : rs = [] := by
          have : rs.length = 0 := by
            simp only [List.length_cons] at hle; omega
          exact List.length_eq_zero.mp this
        subst hrs
        rw [if_pos hrot]
        simp only [lineRun, List.foldl_nil, List.map_cons, List.map_nil,
          List.length_cons, List.length_nil]
        rw [decide_eq_false (by omega)]
        rfl
      · rw [if_neg hrot]
        have h1 : s.lines + 1 < FILE_ROTATION_LINE_COUNT := by omega
        have h2 : s.lines + 1 + rs.length ≤ FILE_ROTATION_LINE_COUNT := by
          simp only [List.length_cons] at hle; omega
        rw [ih { s with lines := s.lines + 1,
                        files := appendLine s.files
                          (.csvRow (s.header.map r.get)) } ho h1 h2]
        simp only [List.length_cons, List.map_cons, appendAll_cons]
        cases s
        simp_all
        omega

theorem lineRun_json_fresh (d k y : String) (r : Record) (rs : List Record)
    (s : LineState) (hc : s.handleOpen = false)
    (hle : rs.length + 1 ≤ FILE_ROTATION_LINE_COUNT) :
    lineRun d k y .json (r :: rs) s =
      { s with
          handleOpen := decide (rs.length + 1 < FILE_ROTATION_LINE_COUNT),
          part := s.part + 1, lines := rs.length + 1,
          files := (s.part + 1, partFileName d k (pyLower y) (s.part + 1) .json,
                    (r :: rs).map .jsonRow) :: s.files } := by
  show lineRun d k y .json rs (lineWrite d k y .json r s) = _
  rw [lineWrite_json_fresh d k y r s hc]
  have h1 : (1 : Nat) < FILE_ROTATION_LINE_COUNT := by decide
  have h2 : 1 + rs.length ≤ FILE_ROTATION_LINE_COUNT := by omega
  rw [lineRun_json_open d k y rs
    { s with handleOpen := true, part := s.part + 1, lines := 1,
             files := (s.part + 1, partFileName d k (pyLower y) (s.part + 1) .json,
                       [.jsonRow r]) :: s.files } rfl h1 h2]
  simp only [appendAll_head, List.map_cons]
  cases s
  simp_all
  omega

theorem lineRun_csv_fresh (d k y : String) (r : Record) (rs : List Record)
    (s : LineState) (hc : s.handleOpen = false)
    (hle : rs.length + 2 ≤ FILE_ROTATION_LINE_COUNT) :
    lineRun d k y .csv (r :: rs) s =
      { s with
          handleOpen := decide (rs.length + 2 < FILE_ROTATION_LINE_COUNT),
          part := s.part + 1, lines := rs.length + 2,
          header := r.keys,
          files := (s.part + 1, partFileName d k (pyLower y) (s.part + 1) .csv,
                    .headerRow r.keys :: .csvRow (r.keys.map r.get) ::
                      rs.map (fun x => .csvRow (r.keys.map x.get))) :: s.files } := by
  show lineRun d k y .csv rs (lineWrite d k y .csv r s) = _
  rw [lineWrite_csv_fresh d k y r s hc]
  have h1 : (2 : Nat) < FILE_ROTATION_LINE_COUNT := by decide
  have h2 : 2 + rs.length ≤ FILE_ROTATION_LINE_COUNT := by omega
  rw [lineRun_csv_open d k y rs
    { s with handleOpen := true, part := s.part + 1, lines := 2,
             header := r.keys,
             files := (s.part + 1, partFileName d k (pyLower y) (s.part + 1) .csv,
                       [.headerRow r.keys, .csvRow (r.keys.map r.get)]) :: s.files }
    rfl h1 h2]
  simp only [appendAll_head, List.map_cons]
  cases s
  simp_all
  omega

/-! ## Columnar-writer structural lemmas -/

theorem flush_buffer_empty (d k y : String) (fmt : Fmt) (ok : Bool)
    (s : ColState) (h : s.buffer = []) :
    flush_buffer d k y fmt ok s = s := by
  simp [flush_buffer, h]

theorem flush_buffer_nonempty (d k y : String) (fmt : Fmt) (ok : Bool)
    (s : ColState) (h : s.buffer ≠ []) :
    flush_buffer d k y fmt ok s =
      (if ok then
        { s with buffer := [], part := s.part + 1,
                 flushed := s.flushed ++
                   [(s.part + 1, partFileName d k (pyLower y) (s.part + 1) fmt,
                     s.buffer)] }
      else
        { s with buffer := [], part := s.part + 1,
                 errors := s.errors ++
                   [partFileName d k (pyLower y) (s.part + 1) fmt] }) := by
  simp only [flush_buffer, if_neg h]

theorem colWrite_nofill (d k y : String) (fmt : Fmt) (ok : Bool)
    (r : Record) (s : ColState)
    (h : s.buffer.length + 1 < BATCH_SIZE_FOR_COLUMNAR) :
    colWrite d k y fmt ok r s = { s with buffer := s.buffer ++ [r] } := by
  simp only [colWrite]
  split
  · next hf =>
      exfalso
      simp only [List.length_append, List.length_cons, List.length_nil] at hf
      omega
  · rfl

theorem colWrite_fill (d k y : String) (fmt : Fmt) (ok : Bool)
    (r : Record) (s : ColState)
    (h : BATCH_SIZE_FOR_COLUMNAR ≤ s.buffer.length + 1) :
    colWrite d k y fmt ok r s =
      flush_buffer d k y fmt ok { s with buffer := s.buffer ++ [r] } := by
  simp only [colWrite]
  split
  · rfl
  · next hf =>
      exfalso
      simp only [List.length_append, List.length_cons, List.length_nil] at hf
      omega

theorem colRun_nofill (d k y : String) (fmt : Fmt) (rs : List Record)
    (s : ColState)
    (h : s.buffer.length + rs.length < BATCH_SIZE_FOR_COLUMNAR) :
    colRun d k y fmt rs s = { s with buffer := s.buffer ++ rs } := by
  induction rs generalizing s with
  | nil =>
      simp only [colRun, List.foldl_nil, List.append_nil]
  | cons r rs ih =>
      show colRun d k y fmt rs (colWrite d k y fmt true r s) = _
      rw [colWrite_nofill d k y fmt true r s
        (by simp only [List.length_cons] at h; omega)]
      rw [ih { s with buffer := s.buffer ++ [r] }
        (by simp only [List.length_append, List.length_cons, List.length_nil,
              List.length_cons] at h ⊢; omega)]
      simp

theorem colRun_fill (d k y : String) (fmt : Fmt) (rs : List Record)
    (s : ColState) (hne : rs ≠ [])
    (h : s.buffer.length + rs.length = BATCH_SIZE_FOR_COLUMNAR) :
    colRun d k y fmt rs s =
      { s with buffer := [], part := s.part + 1,
               flushed := s.flushed ++
                 [(s.part + 1, partFileName d k (pyLower y) (s.part + 1) fmt,
                   s.buffer ++ rs)] } := by
  induction rs generalizing s with
  | nil => exact absurd rfl hne
  | cons r rs ih =>
      show colRun d k y fmt rs (colWrite d k y fmt true r s) = _
      by_cases hr : rs = []
      · subst hr
        have hfill : BATCH_SIZE_FOR_COLUMNAR ≤ s.buffer.length + 1 := by
          simp only [List.length_cons, List.length_nil] at h; omega
        rw [colWrite_fill d k y fmt true r s hfill]
        rw [flush_buffer_nonempty d k y fmt true
          { s with buffer := s.buffer ++ [r] } (by simp)]
        simp [colRun]
      · have hlt : s.buffer.length + 1 < BATCH_SIZE_FOR_COLUMNAR := by
          have : 1 ≤ rs.length := by
            cases rs with
            | nil => exact absurd rfl hr
            | cons a l => simp
          simp only [List.length_cons] at h; omega
        rw [colWrite_nofill d k y fmt true r s hlt]
        rw [ih { s with buffer := s.buffer ++ [r] } hr
          (by simp only [List.length_append, List.length_cons, List.length_nil] at h ⊢
              omega)]
        simp

/-! ## Part-counter and part-file-name invariants -/

/-- The allocation signature of the produced line-format part files:
part number and file name of each, most recent first. -/
def filesSig (fs : List (Nat × String × List FileLine)) : List (Nat × String) :=
  fs.map (fun f => (f.1, f.2.1))

theorem filesSig_appendLine (fs : List (Nat × String × List FileLine))
    (l : FileLine) : filesSig (appendLine fs l) = filesSig fs := by
  cases fs with
  | nil => rfl
  | cons f fs =>
      obtain ⟨p, n, ls⟩ := f
      rfl

theorem lineWrite_shape (d k y : String) (fmt : Fmt) (r : Record)
    (s : LineState) :
    ((lineWrite d k y fmt r s).part = s.part ∧
      filesSig (lineWrite d k y fmt r s).files = filesSig s.files) ∨
    ((lineWrite d k y fmt r s).part = s.part + 1 ∧
      filesSig (lineWrite d k y fmt r s).files =
        (s.part + 1, partFileName d k (pyLower y) (s.part + 1) fmt) ::
          filesSig s.files) := by
  by_cases ho : s.handleOpen
  · left
    simp only [lineWrite, if_pos ho]
    constructor <;>
      (split <;> (try split) <;> simp_all [filesSig_appendLine])
  · right
    simp only [lineWrite, if_neg ho]
    constructor <;>
      (split <;> (try split) <;>
        simp_all [filesSig_appendLine, filesSig, appendLine,
          FILE_ROTATION_LINE_COUNT])

/-- Invariant tying a line-writer state to its produced part files:
every produced part number is bounded by the part counter and its file
name is the canonical one for that part number, and the produced part
numbers strictly decrease down the (most-recent-first) list. -/
def lineInv (d k y : String) (fmt : Fmt) (s : LineState) : Prop :=
  (∀ f ∈ filesSig s.files,
      f.1 ≤ s.part ∧ f.2 = partFileName d k (pyLower y) f.1 fmt) ∧
  (filesSig s.files).Pairwise (fun a b => b.1 < a.1)

theorem lineWrite_inv (d k y : String) (fmt : Fmt) (r : Record)
    (s : LineState) (h : lineInv d k y fmt s) :
    lineInv d k y fmt (lineWrite d k y fmt r s) := by
  rcases lineWrite_shape d k y fmt r s with ⟨hp, hf⟩ | ⟨hp, hf⟩
  · exact ⟨fun f hfm => by
      have := h.1 f (hf ▸ hfm)
      exact ⟨hp ▸ this.1, this.2⟩,
      hf ▸ h.2⟩
  · constructor
    · intro f hfm
      rw [hf] at hfm
      rcases List.mem_cons.mp hfm with he | hm
      · subst he
        exact ⟨hp ▸ Nat.le_refl _, rfl⟩
      · have := h.1 f hm
        exact ⟨hp ▸ Nat.le_trans this.1 (Nat.le_succ _), this.2⟩
    · rw [hf]
      exact List.Pairwise.cons
        (fun b hb => Nat.lt_succ_of_le (h.1 b hb).1) h.2

theorem lineWrite_part_le (d k y : String) (fmt : Fmt) (r : Record)
    (s : LineState) : s.part ≤ (lineWrite d k y fmt r s).part := by
  rcases lineWrite_shape d k y fmt r s with ⟨hp, _⟩ | ⟨hp, _⟩ <;> omega

theorem lineRun_part_le (d k y : String) (fmt : Fmt) (rs : List Record)
    (s : LineState) : s.part ≤ (lineRun d k y fmt rs s).part := by
  induction rs generalizing s with
  | nil => exact Nat.le_refl _
  | cons r rs ih =>
      exact Nat.le_trans (lineWrite_part_le d k y fmt r s)
        (ih (lineWrite d k y fmt r s))

theorem lineRun_inv (d k y : String) (fmt : Fmt) (rs : List Record)
    (s : LineState) (h : lineInv d k y fmt s) :
    lineInv d k y fmt (lineRun d k y fmt rs s) := by
  induction rs generalizing s with
  | nil => exact h
  | cons r rs ih => exact ih _ (lineWrite_inv d k y fmt r s h)

theorem lineInv_names_distinct (d k y : String) (fmt : Fmt)
    (s : LineState) (h : lineInv d k y fmt s) :
    ((filesSig s.files).map Prod.snd).Pairwise (· ≠ ·) := by
  have hp : (filesSig s.files).Pairwise (fun a b => a.2 ≠ b.2) := by
    refine List.Pairwise.imp_of_mem ?_ h.2
    intro a b ha hb hlt heq
    have hna := (h.1 a ha).2
    have hnb := (h.1 b hb).2
    have : a.1 = b.1 :=
      partFileName_inj d k (pyLower y) fmt (by rw [← hna, ← hnb, heq])
    omega
  exact List.Pairwise.map Prod.snd (fun a b hab => hab) hp

/-- Invariant for a columnar writer: every successfully flushed part
number is bounded by the part counter and carries the canonical name,
and flushed part numbers strictly increase in flush order. -/
def colInv (d k y : String) (fmt : Fmt) (s : ColState) : Prop :=
  (∀ f ∈ s.flushed,
      f.1 ≤ s.part ∧ f.2.1 = partFileName d k (pyLower y) f.1 fmt) ∧
  s.flushed.Pairwise (fun a b => a.1 < b.1)

theorem flush_buffer_flushed_shape (d k y : String) (fmt : Fmt) (ok : Bool)
    (s : ColState) :
    (s.part ≤ (flush_buffer d k y fmt ok s).part) ∧
    ((flush_buffer d k y fmt ok s).flushed = s.flushed ∨
      (flush_buffer d k y fmt ok s).flushed =
        s.flushed ++ [(s.part + 1, partFileName d k (pyLower y) (s.part + 1) fmt,
          s.buffer)]) := by
  by_cases h : s.buffer = []
  · rw [flush_buffer_empty d k y fmt ok s h]
    exact ⟨Nat.le_refl _, Or.inl rfl⟩
  · rw [flush_buffer_nonempty d k y fmt ok s h]
    cases ok <;> simp

theorem flush_buffer_part_bound (d k y : String) (fmt : Fmt) (ok : Bool)
    (s : ColState) :
    (flush_buffer d k y fmt ok s).part ≤ s.part + 1 := by
  by_cases h : s.buffer = []
  · rw [flush_buffer_empty d k y fmt ok s h]; omega
  · rw [flush_buffer_nonempty d k y fmt ok s h]
    cases ok <;> simp

theorem flush_buffer_inv (d k y : String) (fmt : Fmt) (ok : Bool)
    (s : ColState) (h : colInv d k y fmt s) :
    colInv d k y fmt (flush_buffer d k y fmt ok s) := by
  by_cases hb : s.buffer = []
  · rw [flush_buffer_empty d k y fmt ok s hb]; exact h
  · rw [flush_buffer_nonempty d k y fmt ok s hb]
    cases ok
    · simp only [if_neg Bool.false_ne_true]
      exact ⟨fun f hf => ⟨Nat.le_trans ((h.1 f hf).1) (Nat.le_succ _),
        (h.1 f hf).2⟩, h.2⟩
    · simp only [if_pos rfl]
      constructor
      · intro f hf
        rcases List.mem_append.mp hf with hm | hm
        · exact ⟨Nat.le_trans ((h.1 f hm).1) (Nat.le_succ _), (h.1 f hm).2⟩
        · rcases List.mem_singleton.mp hm with rfl
          exact ⟨Nat.le_refl _, rfl⟩
      · apply List.pairwise_append.mpr
        refine ⟨h.2, List.pairwise_singleton _ _, ?_⟩
        intro a ha b hb
        rcases List.mem_singleton.mp hb with rfl
        exact Nat.lt_succ_of_le (h.1 a ha).1

theorem colWrite_inv (d k y : String) (fmt : Fmt) (ok : Bool) (r : Record)
    (s : ColState) (h : colInv d k y fmt s) :
    colInv d k y fmt (colWrite d k y fmt ok r s) := by
  simp only [colWrite]
  split
  · exact flush_buffer_inv d k y fmt ok _ ⟨h.1, h.2⟩
  · exact ⟨h.1, h.2⟩

theorem colWrite_part_le (d k y : String) (fmt : Fmt) (ok : Bool) (r : Record)
    (s : ColState) : s.part ≤ (colWrite d k y fmt ok r s).part := by
  simp only [colWrite]
  split
  · exact (flush_buffer_flushed_shape d k y fmt ok
      { s with buffer := s.buffer ++ [r] }).1
  · exact Nat.le_refl _

theorem colStep_inv (d k y : String) (fmt : Fmt) (s : ColState) (op : ColOp)
    (h : colInv d k y fmt s) :
    colInv d k y fmt (colStep d k y fmt s op) := by
  cases op with
  | write ok r => exact colWrite_inv d k y fmt ok r s h
  | doFlush ok => exact flush_buffer_inv d k y fmt ok s h

theorem colStep_part_le (d k y : String) (fmt : Fmt) (s : ColState)
    (op : ColOp) : s.part ≤ (colStep d k y fmt s op).part := by
  cases op with
  | write ok r => exact colWrite_part_le d k y fmt ok r s
  | doFlush ok => exact (flush_buffer_flushed_shape d k y fmt ok s).1

theorem colRunOps_inv (d k y : String) (fmt : Fmt) (ops : List ColOp)
    (s : ColState) (h : colInv d k y fmt s) :
    colInv d k y fmt (colRunOps d k y fmt ops s) := by
  induction ops generalizing s with
  | nil => exact h
  | cons op ops ih => exact ih _ (colStep_inv d k y fmt s op h)

theorem colRunOps_part_le (d k y : String) (fmt : Fmt) (ops : List ColOp)
    (s : ColState) : s.part ≤ (colRunOps d k y fmt ops s).part := by
  induction ops generalizing s with
  | nil => exact Nat.le_refl _
  | cons op ops ih =>
      exact Nat.le_trans (colStep_part_le d k y fmt s op)
        (ih (colStep d k y fmt s op))

theorem colInv_names_distinct (d k y : String) (fmt : Fmt)
    (s : ColState) (h : colInv d k y fmt s) :
    (s.flushed.map (fun f => f.2.1)).Pairwise (· ≠ ·) := by
  have hp : s.flushed.Pairwise (fun a b => a.2.1 ≠ b.2.1) := by
    refine List.Pairwise.imp_of_mem ?_ h.2
    intro a b ha hb hlt heq
    have hna := (h.1 a ha).2
    have hnb := (h.1 b hb).2
    have : a.1 = b.1 :=
      partFileName_inj d k (pyLower y) fmt (by rw [← hna, ← hnb, heq])
    omega
  exact List.Pairwise.map _ (fun a b hab => hab) hp

/-! ## Remaining helpers -/

theorem lineRun_append (d k y : String) (fmt : Fmt) (rs1 rs2 : List Record)
    (s : LineState) :
    lineRun d k y fmt (rs1 ++ rs2) s =
      lineRun d k y fmt rs2 (lineRun d k y fmt rs1 s) := by
  simp [lineRun, List.foldl_append]

theorem lineRun_singleton (d k y : String) (fmt : Fmt) (r : Record)
    (s : LineState) : lineRun d k y fmt [r] s = lineWrite d k y fmt r s := rfl

theorem colRun_append (d k y : String) (fmt : Fmt) (rs1 rs2 : List Record)
    (s : ColState) :
    colRun d k y fmt (rs1 ++ rs2) s =
      colRun d k y fmt rs2 (colRun d k y fmt rs1 s) := by
  simp [colRun, List.foldl_append]

theorem colRunOps_append (d k y : String) (fmt : Fmt) (ops1 ops2 : List ColOp)
    (s : ColState) :
    colRunOps d k y fmt (ops1 ++ ops2) s =
      colRunOps d k y fmt ops2 (colRunOps d k y fmt ops1 s) := by
  simp [colRunOps, List.foldl_append]

theorem flush_buffer_clears (d k y : String) (fmt : Fmt) (ok : Bool)
    (s : ColState) : (flush_buffer d k y fmt ok s).buffer = [] := by
  by_cases h : s.buffer = []
  · rw [flush_buffer_empty d k y fmt ok s h]; exact h
  · rw [flush_buffer_nonempty d k y fmt ok s h]
    cases ok <;> simp

/-- The initial line-writer state satisfies the part-file invariant. -/
theorem lineInv_init (d k y : String) (fmt : Fmt) :
    lineInv d k y fmt {} := by
  constructor
  · intro f hf
    simp [filesSig] at hf
  · simp [filesSig]

/-- The initial columnar state satisfies the part-file invariant. -/
theorem colInv_init (d k y : String) (fmt : Fmt) :
    colInv d k y fmt {} := by
  constructor
  · intro f hf
    simp at hf
  · simp

/-- A sample record with the single field a. -/
def sampleA : Record := ⟨[("a", JValue.str "x")]⟩

/-- A sample record with the single field b. -/
def sampleB : Record := ⟨[("b", JValue.str "y")]⟩

/-! ## Claim C7 -/

/-- C7: when a columnar flush fails, the failure is reported via
observability (the errors log) and ingestion continues; the buffer was
already cleared before the write was attempted, so after the failed
flush the buffer is empty, the flushed parts are unchanged, and that
batch is lost (while the part counter still advanced). -/
theorem C7_flush_failure_loses_batch (d k y : String) (fmt : Fmt)
    (s : ColState) (h : s.buffer ≠ []) :
    (flush_buffer d k y fmt false s).buffer = [] ∧
    (flush_buffer d k y fmt false s).flushed = s.flushed ∧
    (flush_buffer d k y fmt false s).part = s.part + 1 ∧
    (flush_buffer d k y fmt false s).errors =
      s.errors ++ [partFileName d k (pyLower y) (s.part + 1) fmt] := by
  rw [flush_buffer_nonempty d k y fmt false s h]
  simp

/-- Witness for C7 at a concrete one-record buffer. -/
theorem C7_flush_failure_loses_batch_witness :
    (({ buffer := [sampleA] } : ColState).buffer ≠ []) ∧
    ((flush_buffer "data" "trades" "BTCUSDT" .parquet false
        { buffer := [sampleA] }).buffer = [] ∧
     (flush_buffer "data" "trades" "BTCUSDT" .parquet false
        { buffer := [sampleA] }).flushed = ({ buffer := [sampleA] } : ColState).flushed ∧
     (flush_buffer "data" "trades" "BTCUSDT" .parquet false
        { buffer := [sampleA] }).part = ({ buffer := [sampleA] } : ColState).part + 1 ∧
     (flush_buffer "data" "trades" "BTCUSDT" .parquet false
        { buffer := [sampleA] }).errors =
       ({ buffer := [sampleA] } : ColState).errors ++
         [partFileName "data" "trades" (pyLower "BTCUSDT") 1 .parquet]) :=
  ⟨by decide,
   C7_flush_failure_loses_batch "data" "trades" "BTCUSDT" .parquet
     { buffer := [sampleA] } (by decide)⟩

/-! ## Claim C4 -/

/-- C4: a columnar writer receiving exactly 10,000 records with no
shutdown has exactly one flushed part, numbered 1, holding the 10,000
records; receiving 10,001 records leaves part 1 as the only flushed
part with one record still buffered, and the final forced flush (what
flush_all invokes at shutdown) then produces part 2 with exactly that
one row. -/
theorem C4_columnar_batching (d k y : String) (fmt : Fmt) (rs : List Record)
    (hfmt : fmt = Fmt.parquet ∨ fmt = Fmt.orc)
    (hlen : rs.length = BATCH_SIZE_FOR_COLUMNAR) :
    colRun d k y fmt rs {} =
      { buffer := [], part := 1,
        flushed := [(1, partFileName d k (pyLower y) 1 fmt, rs)],
        errors := [] } ∧
    (∀ x : Record,
      colRun d k y fmt (rs ++ [x]) {} =
        { buffer := [x], part := 1,
          flushed := [(1, partFileName d k (pyLower y) 1 fmt, rs)],
          errors := [] } ∧
      flush_buffer d k y fmt true (colRun d k y fmt (rs ++ [x]) {}) =
        { buffer := [], part := 2,
          flushed := [(1, partFileName d k (pyLower y) 1 fmt, rs),
                      (2, partFileName d k (pyLower y) 2 fmt, [x])],
          errors := [] }) := by
  have hne : rs ≠ [] := by
    intro hrs
    rw [hrs] at hlen
    simp [BATCH_SIZE_FOR_COLUMNAR] at hlen
  have hfill : (({} : ColState)).buffer.length + rs.length =
      BATCH_SIZE_FOR_COLUMNAR := by
    simp [hlen]
  have h1 := colRun_fill d k y fmt rs {} hne hfill
  have h1' : colRun d k y fmt rs {} =
      { buffer := [], part := 1,
        flushed := [(1, partFileName d k (pyLower y) 1 fmt, rs)],
        errors := [] } := by
    rw [h1]
    simp
  refine ⟨h1', fun x => ?_⟩
  have hstep : colRun d k y fmt [x]
      { buffer := [], part := 1,
        flushed := [(1, partFileName d k (pyLower y) 1 fmt, rs)],
        errors := [] } =
      colWrite d k y fmt true x
        { buffer := [], part := 1,
          flushed := [(1, partFileName d k (pyLower y) 1 fmt, rs)],
          errors := [] } := rfl
  have h2 : colRun d k y fmt (rs ++ [x]) {} =
      { buffer := [x], part := 1,
        flushed := [(1, partFileName d k (pyLower y) 1 fmt, rs)],
        errors := [] } := by
    rw [colRun_append, h1', hstep]
    rw [colWrite_nofill d k y fmt true x
      { buffer := [], part := 1,
        flushed := [(1, partFileName d k (pyLower y) 1 fmt, rs)],
        errors := [] }
      (by simp [BATCH_SIZE_FOR_COLUMNAR])]
    simp
  refine ⟨h2, ?_⟩
  rw [h2]
  rw [flush_buffer_nonempty d k y fmt true
    { buffer := [x], part := 1,
      flushed := [(1, partFileName d k (pyLower y) 1 fmt, rs)],
      errors := [] }
    (by simp)]
  rfl

/-- Witness for C4 with 10,000 copies of a concrete record. -/
theorem C4_columnar_batching_witness :
    (Fmt.parquet = Fmt.parquet ∨ Fmt.parquet = Fmt.orc) ∧
    ((List.replicate 10000 sampleA).length = BATCH_SIZE_FOR_COLUMNAR) ∧
    (colRun "data" "trades" "BTCUSDT" .parquet
        (List.replicate 10000 sampleA) {} =
      { buffer := [], part := 1,
        flushed := [(1, partFileName "data" "trades" (pyLower "BTCUSDT") 1 .parquet,
                     List.replicate 10000 sampleA)],
        errors := [] }) := by
  have hf : Fmt.parquet = Fmt.parquet ∨ Fmt.parquet = Fmt.orc := Or.inl rfl
  have hl : (List.replicate 10000 sampleA).length = BATCH_SIZE_FOR_COLUMNAR := by
    rw [List.length_replicate]
    rfl
  exact ⟨hf, hl,
    (C4_columnar_batching "data" "trades" "BTCUSDT" .parquet
      (List.replicate 10000 sampleA) hf hl).1⟩

/-! ## Claim C8 -/

/-- C8: for every writer state, the part counter never decreases over
any sequence of write and flush operations, and no part-file name is
allocated twice within a run (part files are never overwritten):
stated for line-format writers over any record sequence and for
columnar writers over any sequence of writes and flushes with
arbitrary flush outcomes. -/
theorem C8_parts_monotone_files_distinct :
    (∀ (d k y : String) (fmt : Fmt) (rs1 rs2 : List Record),
       (lineRun d k y fmt rs1 {}).part ≤
         (lineRun d k y fmt (rs1 ++ rs2) {}).part) ∧
    (∀ (d k y : String) (fmt : Fmt) (rs : List Record),
       ((filesSig (lineRun d k y fmt rs {}).files).map Prod.snd).Pairwise
         (· ≠ ·)) ∧
    (∀ (d k y : String) (fmt : Fmt) (ops1 ops2 : List ColOp),
       (colRunOps d k y fmt ops1 {}).part ≤
         (colRunOps d k y fmt (ops1 ++ ops2) {}).part) ∧
    (∀ (d k y : String) (fmt : Fmt) (ops : List ColOp),
       ((colRunOps d k y fmt ops {}).flushed.map (fun f => f.2.1)).Pairwise
         (· ≠ ·)) := by
  refine ⟨?_, ?_, ?_, ?_⟩
  · intro d k y fmt rs1 rs2
    rw [lineRun_append]
    exact lineRun_part_le d k y fmt rs2 _
  · intro d k y fmt rs
    exact lineInv_names_distinct d k y fmt _
      (lineRun_inv d k y fmt rs {} (lineInv_init d k y fmt))
  · intro d k y fmt ops1 ops2
    rw [colRunOps_append]
    exact colRunOps_part_le d k y fmt ops2 _
  · intro d k y fmt ops
    exact colInv_names_distinct d k y fmt _
      (colRunOps_inv d k y fmt ops {} (colInv_init d k y fmt))

/-! ## Claim C10 -/

/-- C10: a message that fails to decode is not skipped: the producer
abandons the current connection, waits the fixed five-unit reconnect
delay, reopens the connection, and only then continues with subsequent
traffic; a decode failure is handled identically to a connection
failure. -/
theorem C10_decode_failure_reconnects (symbol stream_key : String)
    (process_func : Raw → Record) (samples : Option Nat)
    (rest : List FeedEvent) (count : Nat) :
    producerRun symbol stream_key process_func samples
        (.bad_message :: rest) count =
      producerRun symbol stream_key process_func samples
        (.conn_lost :: rest) count ∧
    producerRun symbol stream_key process_func samples
        (.bad_message :: rest) count =
      .reconnect_delay 5 :: .reconnect ::
        producerRun symbol stream_key process_func samples rest count :=
  ⟨rfl, rfl⟩

/-! ## Claim C5 -/

/-- Number of inbound messages in a feed-event trace that decode
successfully. -/
def msgCount : List FeedEvent → Nat
  | [] => 0
  | .msg _ :: rest => msgCount rest + 1
  | .bad_message :: rest => msgCount rest
  | .conn_lost :: rest => msgCount rest

/-- Number of tuples a producer action trace enqueues. -/
def putCount (as : List ProducerAction) : Nat :=
  (as.filter (fun a => match a with
    | .put_tuple _ => true
    | _ => false)).length

theorem putCount_put (t : EventTuple) (l : List ProducerAction) :
    putCount (.put_tuple t :: l) = putCount l + 1 := by
  simp [putCount, List.filter]

theorem putCount_delay (n : Nat) (l : List ProducerAction) :
    putCount (.reconnect_delay n :: l) = putCount l := by
  simp [putCount, List.filter]

theorem putCount_reconnect (l : List ProducerAction) :
    putCount (.reconnect :: l) = putCount l := by
  simp [putCount, List.filter]

theorem putCount_append (l1 l2 : List ProducerAction) :
    putCount (l1 ++ l2) = putCount l1 + putCount l2 := by
  simp [putCount, List.filter_append]

theorem producerRun_cap (symbol stream_key : String) (pf : Raw → Record)
    (k : Nat) (events : List FeedEvent) :
    ∀ count : Nat, count < k → k - count ≤ msgCount events →
    ∃ pre t, producerRun symbol stream_key pf (some k) events count =
        pre ++ [.put_tuple t, .finished] ∧
      putCount pre = k - count - 1 := by
  induction events with
  | nil =>
      intro count h1 h2
      simp [msgCount] at h2
      omega
  | cons e rest ih =>
      intro count h1 h2
      cases e with
      | msg raw =>
          simp only [producerRun]
          rw [if_pos (show k ≠ 0 by omega)]
          by_cases hc : k ≤ count + 1
          · rw [if_pos hc]
            exact ⟨[], ⟨stream_key, symbol, pf raw⟩, rfl,
              by show 0 = k - count - 1; omega⟩
          · rw [if_neg hc]
            obtain ⟨pre, t, heq, hp⟩ := ih (count + 1) (by omega)
              (by simp only [msgCount] at h2; omega)
            exact ⟨.put_tuple ⟨stream_key, symbol, pf raw⟩ :: pre, t,
              by rw [heq]; rfl,
              by rw [putCount_put]; omega⟩
      | bad_message =>
          simp only [producerRun]
          obtain ⟨pre, t, heq, hp⟩ := ih count h1
            (by simp only [msgCount] at h2; omega)
          exact ⟨.reconnect_delay 5 :: .reconnect :: pre, t,
            by rw [heq]; rfl,
            by rw [putCount_delay, putCount_reconnect]; exact hp⟩
      | conn_lost =>
          simp only [producerRun]
          obtain ⟨pre, t, heq, hp⟩ := ih count h1
            (by simp only [msgCount] at h2; omega)
          exact ⟨.reconnect_delay 5 :: .reconnect :: pre, t,
            by rw [heq]; rfl,
            by rw [putCount_delay, putCount_reconnect]; exact hp⟩

/-- C5: with a configured sample cap of K (at least one) and a feed
delivering at least K decodable messages, the producer enqueues
exactly K tuples — its trace is a prefix holding K minus one puts,
then the Kth put immediately followed by termination — so the whole
trace holds exactly K puts, never K minus one or K plus one. -/
theorem C5_sample_cap_exact (symbol stream_key : String)
    (pf : Raw → Record) (k : Nat) (events : List FeedEvent)
    (hk : 1 ≤ k) (hev : k ≤ msgCount events) :
    ∃ pre t, producerRun symbol stream_key pf (some k) events 0 =
        pre ++ [.put_tuple t, .finished] ∧
      putCount pre = k - 1 ∧
      putCount (producerRun symbol stream_key pf (some k) events 0) = k := by
  obtain ⟨pre, t, heq, hp⟩ :=
    producerRun_cap symbol stream_key pf k events 0 (by omega) (by omega)
  refine ⟨pre, t, heq, by omega, ?_⟩
  rw [heq, putCount_append]
  have h2 : putCount [ProducerAction.put_tuple t, ProducerAction.finished] = 1 := rfl
  omega

/-- A raw message carrying no fields. -/
def rawNull : Raw := fun _ => JValue.null

/-- Witness for C5: cap two, a trace with three decodable messages and
one decode failure. -/
theorem C5_sample_cap_exact_witness :
    (1 ≤ 2) ∧
    (2 ≤ msgCount [.msg rawNull, .bad_message, .msg rawNull, .msg rawNull]) ∧
    (∃ pre t, producerRun "BTCUSDT" "trades" process_trade_payload (some 2)
        [.msg rawNull, .bad_message, .msg rawNull, .msg rawNull] 0 =
        pre ++ [.put_tuple t, .finished] ∧
      putCount pre = 2 - 1 ∧
      putCount (producerRun "BTCUSDT" "trades" process_trade_payload (some 2)
        [.msg rawNull, .bad_message, .msg rawNull, .msg rawNull] 0) = 2) :=
  ⟨by omega, by show (2 : Nat) ≤ 3; omega,
   C5_sample_cap_exact "BTCUSDT" "trades" process_trade_payload 2
     [.msg rawNull, .bad_message, .msg rawNull, .msg rawNull]
     (by omega) (by show (2 : Nat) ≤ 3; omega)⟩

/-! ## Claim C9 -/

/-- C9: for symbol BTCUSDT, category trades and output format json,
dispatching two projected trade messages yields exactly one writer
entry whose single part file is data/trades_btcusdt_1.jsonl holding
the two records as JSON lines in arrival order, both records carrying
exactly the fields event_time, price, quantity, trade_time,
is_buyer_maker; both tuples are processed and the dispatcher does not
halt. -/
theorem C9_two_trades_one_jsonl (raw1 raw2 : Raw) :
    consumerRun {} false { output := some [Fmt.json], output_dir := "data" }
      [⟨"trades", "BTCUSDT", process_trade_payload raw1⟩,
       ⟨"trades", "BTCUSDT", process_trade_payload raw2⟩] [] =
      ([(⟨"trades", "btcusdt", Fmt.json⟩,
         WState.line
           { handleOpen := true, part := 1, lines := 2, header := [],
             files := [(1, "data/trades_btcusdt_1.jsonl",
               [.jsonRow (process_trade_payload raw1),
                .jsonRow (process_trade_payload raw2)])] })],
       [⟨"trades", "BTCUSDT", process_trade_payload raw1⟩,
        ⟨"trades", "BTCUSDT", process_trade_payload raw2⟩],
       false) ∧
    (process_trade_payload raw1).keys =
      ["event_time", "price", "quantity", "trade_time", "is_buyer_maker"] ∧
    (process_trade_payload raw2).keys =
      ["event_time", "price", "quantity", "trade_time", "is_buyer_maker"] := by
  refine ⟨?_, rfl, rfl⟩
  rfl

/-! ## Claim C3 -/

/-- C3 counterexample: a delimited-text (csv) writer receiving exactly
100,000 records does not produce exactly one part file: the header row
counts toward the rotation threshold, so rotation fires on the
99,999th record and the 100,000th record opens a second part. -/
theorem C3_counterexample :
    (List.replicate 100000 sampleA).length = 100000 ∧
    (lineRun "data" "trades" "BTCUSDT" .csv
      (List.replicate 100000 sampleA) {}).files.length = 2 ∧
    (lineRun "data" "trades" "BTCUSDT" .csv
      (List.replicate 100000 sampleA) {}).files.length ≠ 1 := by
  have hsplit : List.replicate 100000 sampleA =
      (sampleA :: List.replicate 99998 sampleA) ++ [sampleA] := by
    rw [show (100000 : Nat) = 99999 + 1 from rfl, List.replicate_succ']
    rw [List.replicate_succ]
  have hrun : lineRun "data" "trades" "BTCUSDT" .csv
      (List.replicate 100000 sampleA) {} =
      lineWrite "data" "trades" "BTCUSDT" .csv sampleA
        (lineRun "data" "trades" "BTCUSDT" .csv
          (sampleA :: List.replicate 99998 sampleA) {}) := by
    rw [hsplit, lineRun_append, lineRun_singleton]
  have h1 := lineRun_csv_fresh "data" "trades" "BTCUSDT" sampleA
    (List.replicate 99998 sampleA) {} rfl
    (by rw [List.length_replicate]; decide)
  rw [List.length_replicate] at h1
  have h1' : lineRun "data" "trades" "BTCUSDT" .csv
      (sampleA :: List.replicate 99998 sampleA) {} =
      { handleOpen := false, part := 1, lines := 100000,
        header := sampleA.keys,
        files := [(1, partFileName "data" "trades" (pyLower "BTCUSDT") 1 .csv,
                   .headerRow sampleA.keys ::
                     .csvRow (sampleA.keys.map sampleA.get) ::
                       (List.replicate 99998 sampleA).map
                         (fun z => .csvRow (sampleA.keys.map z.get)))] } := by
    rw [h1]
    rfl
  rw [hrun, h1']
  rw [lineWrite_csv_fresh "data" "trades" "BTCUSDT" sampleA _ rfl]
  refine ⟨by rw [List.length_replicate], by rfl, by decide⟩

/-- C3 amended: a line-JSON writer receiving exactly 100,000 records
produces exactly one part file with 100,000 data lines, and the
100,001st record starts part 2; a delimited-text (csv) writer counts
its header row toward the 100,000-line rotation threshold, so part 1
closes upon the 99,999th record (one header plus 99,999 data rows)
and the next record starts part 2 with a fresh header. -/
theorem C3_amended (d k y : String) :
    (∀ (r : Record) (rs : List Record),
       (r :: rs).length = FILE_ROTATION_LINE_COUNT →
       lineRun d k y .json (r :: rs) {} =
         { handleOpen := false, part := 1, lines := FILE_ROTATION_LINE_COUNT,
           header := [],
           files := [(1, partFileName d k (pyLower y) 1 .json,
                      (r :: rs).map .jsonRow)] } ∧
       (∀ x : Record,
          lineRun d k y .json ((r :: rs) ++ [x]) {} =
            { handleOpen := true, part := 2, lines := 1, header := [],
              files := [(2, partFileName d k (pyLower y) 2 .json, [.jsonRow x]),
                        (1, partFileName d k (pyLower y) 1 .json,
                         (r :: rs).map .jsonRow)] })) ∧
    (∀ (r : Record) (rs : List Record),
       (r :: rs).length + 1 = FILE_ROTATION_LINE_COUNT →
       lineRun d k y .csv (r :: rs) {} =
         { handleOpen := false, part := 1, lines := FILE_ROTATION_LINE_COUNT,
           header := r.keys,
           files := [(1, partFileName d k (pyLower y) 1 .csv,
                      .headerRow r.keys :: .csvRow (r.keys.map r.get) ::
                        rs.map (fun z => .csvRow (r.keys.map z.get)))] } ∧
       (∀ x : Record,
          (lineRun d k y .csv ((r :: rs) ++ [x]) {}).files.length = 2 ∧
          (lineRun d k y .csv ((r :: rs) ++ [x]) {}).files.head? =
            some (2, partFileName d k (pyLower y) 2 .csv,
                  [.headerRow x.keys, .csvRow (x.keys.map x.get)]))) := by
  constructor
  · intro r rs hlen
    simp only [List.length_cons] at hlen
    have hle : rs.length + 1 ≤ FILE_ROTATION_LINE_COUNT := by omega
    have hj := lineRun_json_fresh d k y r rs {} rfl hle
    have hj' : lineRun d k y .json (r :: rs) {} =
        { handleOpen := false, part := 1, lines := FILE_ROTATION_LINE_COUNT,
          header := [],
          files := [(1, partFileName d k (pyLower y) 1 .json,
                     (r :: rs).map .jsonRow)] } := by
      rw [hj]
      rw [decide_eq_false (by omega)]
      simp [hlen]
    refine ⟨hj', fun x => ?_⟩
    rw [lineRun_append, hj']
    have hstep : lineRun d k y .json [x]
        { handleOpen := false, part := 1, lines := FILE_ROTATION_LINE_COUNT,
          header := [],
          files := [(1, partFileName d k (pyLower y) 1 .json,
                     (r :: rs).map .jsonRow)] } =
        lineWrite d k y .json x
          { handleOpen := false, part := 1, lines := FILE_ROTATION_LINE_COUNT,
            header := [],
            files := [(1, partFileName d k (pyLower y) 1 .json,
                       (r :: rs).map .jsonRow)] } := rfl
    rw [hstep, lineWrite_json_fresh d k y x _ rfl]
  · intro r rs hlen
    simp only [List.length_cons] at hlen
    have hle : rs.length + 2 ≤ FILE_ROTATION_LINE_COUNT := by omega
    have hc := lineRun_csv_fresh d k y r rs {} rfl hle
    have hc' : lineRun d k y .csv (r :: rs) {} =
        { handleOpen := false, part := 1, lines := FILE_ROTATION_LINE_COUNT,
          header := r.keys,
          files := [(1, partFileName d k (pyLower y) 1 .csv,
                     .headerRow r.keys :: .csvRow (r.keys.map r.get) ::
                       rs.map (fun z => .csvRow (r.keys.map z.get)))] } := by
      rw [hc]
      rw [decide_eq_false (by omega)]
      simp [show rs.length + 2 = FILE_ROTATION_LINE_COUNT by omega]
    refine ⟨hc', fun x => ?_⟩
    rw [lineRun_append, hc']
    have hstep : lineRun d k y .csv [x]
        { handleOpen := false, part := 1, lines := FILE_ROTATION_LINE_COUNT,
          header := r.keys,
          files := [(1, partFileName d k (pyLower y) 1 .csv,
                     .headerRow r.keys :: .csvRow (r.keys.map r.get) ::
                       rs.map (fun z => .csvRow (r.keys.map z.get)))] } =
        lineWrite d k y .csv x
          { handleOpen := false, part := 1, lines := FILE_ROTATION_LINE_COUNT,
            header := r.keys,
            files := [(1, partFileName d k (pyLower y) 1 .csv,
                       .headerRow r.keys :: .csvRow (r.keys.map r.get) ::
                         rs.map (fun z => .csvRow (r.keys.map z.get)))] } := rfl
    rw [hstep, lineWrite_csv_fresh d k y x _ rfl]
    constructor
    · rfl
    · rfl

/-- Witness for C3 amended, at 100,000 copies of a concrete record for
json and 99,999 for csv. -/
theorem C3_amended_witness :
    ((sampleA :: List.replicate 99999 sampleA).length =
      FILE_ROTATION_LINE_COUNT) ∧
    ((lineRun "data" "trades" "BTCUSDT" .json
        (sampleA :: List.replicate 99999 sampleA) {}).files.length = 1) ∧
    ((sampleA :: List.replicate 99998 sampleA).length + 1 =
      FILE_ROTATION_LINE_COUNT) ∧
    ((lineRun "data" "trades" "BTCUSDT" .csv
        ((sampleA :: List.replicate 99998 sampleA) ++ [sampleB]) {}).files.length
      = 2) := by
  have h1 : (sampleA :: List.replicate 99999 sampleA).length =
      FILE_ROTATION_LINE_COUNT := by
    rw [List.length_cons, List.length_replicate]
    rfl
  have h2 : (sampleA :: List.replicate 99998 sampleA).length + 1 =
      FILE_ROTATION_LINE_COUNT := by
    rw [List.length_cons, List.length_replicate]
    rfl
  have hj := ((C3_amended "data" "trades" "BTCUSDT").1 sampleA
    (List.replicate 99999 sampleA) h1).1
  have hcsv := (((C3_amended "data" "trades" "BTCUSDT").2 sampleA
    (List.replicate 99998 sampleA) h2).2 sampleB).1
  exact ⟨h1, by rw [hj]; rfl, h2, hcsv⟩

/-! ## Claim C6 -/

/-- C6 counterexample: the csv header is not fixed by the first record
a WriterState ever sees.  After 99,999 records with field a force a
rotation, a record with field b opens part 2 whose header row is b —
re-captured from that record — not the original a. -/
theorem C6_counterexample :
    sampleA.keys = ["a"] ∧
    sampleB.keys = ["b"] ∧
    (lineRun "data" "trades" "BTCUSDT" .csv
      ((sampleA :: List.replicate 99998 sampleA) ++ [sampleB]) {}).header =
      ["b"] ∧
    (lineRun "data" "trades" "BTCUSDT" .csv
      ((sampleA :: List.replicate 99998 sampleA) ++ [sampleB]) {}).files.head? =
      some (2, partFileName "data" "trades" (pyLower "BTCUSDT") 2 .csv,
            [.headerRow ["b"], .csvRow [.str "y"]]) ∧
    (["b"] : List String) ≠ sampleA.keys := by
  have h1 := lineRun_csv_fresh "data" "trades" "BTCUSDT" sampleA
    (List.replicate 99998 sampleA) {} rfl
    (by rw [List.length_replicate]; decide)
  rw [List.length_replicate] at h1
  have h1' : lineRun "data" "trades" "BTCUSDT" .csv
      (sampleA :: List.replicate 99998 sampleA) {} =
      { handleOpen := false, part := 1, lines := 100000,
        header := sampleA.keys,
        files := [(1, partFileName "data" "trades" (pyLower "BTCUSDT") 1 .csv,
                   .headerRow sampleA.keys ::
                     .csvRow (sampleA.keys.map sampleA.get) ::
                       (List.replicate 99998 sampleA).map
                         (fun z => .csvRow (sampleA.keys.map z.get)))] } := by
    rw [h1]
    rfl
  rw [lineRun_append, lineRun_singleton, h1']
  rw [lineWrite_csv_fresh "data" "trades" "BTCUSDT" sampleB _ rfl]
  refine ⟨rfl, rfl, rfl, rfl, by decide⟩

/-- C6 amended: for a delimited-text WriterState the header is
captured at each part-file open, from the first record written to that
part; within one part every record is written positionally against
that part's header, so after a rotation the header is re-derived from
the next record rather than kept from the first record the WriterState
ever saw. -/
theorem C6_amended (d k y : String) (r : Record) (rs : List Record)
    (s : LineState) (hc : s.handleOpen = false)
    (hle : rs.length + 2 ≤ FILE_ROTATION_LINE_COUNT) :
    lineRun d k y .csv (r :: rs) s =
      { s with
          handleOpen := decide (rs.length + 2 < FILE_ROTATION_LINE_COUNT),
          part := s.part + 1, lines := rs.length + 2, header := r.keys,
          files := (s.part + 1, partFileName d k (pyLower y) (s.part + 1) .csv,
                    .headerRow r.keys :: .csvRow (r.keys.map r.get) ::
                      rs.map (fun x => .csvRow (r.keys.map x.get))) :: s.files } :=
  lineRun_csv_fresh d k y r rs s hc hle

/-- Witness for C6 amended: a two-record part whose second record
lacks the header field and is written positionally against the first
record's header. -/
theorem C6_amended_witness :
    (({} : LineState).handleOpen = false) ∧
    (([sampleB] : List Record).length + 2 ≤ FILE_ROTATION_LINE_COUNT) ∧
    lineRun "data" "trades" "BTCUSDT" .csv [sampleA, sampleB] {} =
      { handleOpen := true, part := 1, lines := 3, header := ["a"],
        files := [(1, "data/trades_btcusdt_1.csv",
                   [.headerRow ["a"], .csvRow [.str "x"],
                    .csvRow [.null]])] } := by
  refine ⟨rfl, by decide, ?_⟩
  rw [C6_amended "data" "trades" "BTCUSDT" sampleA [sampleB] {} rfl (by decide)]
  decide

/-! ## Dispatcher success lemmas (used by claims C1 and C2) -/

theorem write_to_fileE_isOk (faults : Faults) (args : Args)
    (stream_key symbol : String) (payload : Record) (fmt : Fmt)
    (w : Writers) (hl : faults.line_ok fmt = true) :
    ∃ w', write_to_fileE faults args stream_key symbol payload fmt w =
      .ok w' := by
  cases fmt <;> simp [write_to_fileE, hl]

theorem foldlM_writes_ok (faults : Faults) (args : Args)
    (stream_key symbol : String) (payload : Record)
    (hl : ∀ fmt, faults.line_ok fmt = true) :
    ∀ (fmts : List Fmt) (w : Writers),
      ∃ w', fmts.foldlM
        (fun w fmt => write_to_fileE faults args stream_key symbol payload fmt w)
        w = .ok w' := by
  intro fmts
  induction fmts with
  | nil => intro w; exact ⟨w, rfl⟩
  | cons fmt fmts ih =>
      intro w
      obtain ⟨w1, hw1⟩ :=
        write_to_fileE_isOk faults args stream_key symbol payload fmt w (hl fmt)
      obtain ⟨w2, hw2⟩ := ih w1
      refine ⟨w2, ?_⟩
      simp only [List.foldlM_cons, hw1]
      simpa using hw2

theorem dispatchOne_ok (faults : Faults) (redis_enabled : Bool) (args : Args)
    (t : EventTuple) (w : Writers) (hs : faults.store_ok = true)
    (hl : ∀ fmt, faults.line_ok fmt = true) :
    ∃ w', dispatchOne faults redis_enabled args t w = .done w' := by
  cases t with
  | mk sk sym p =>
      simp only [dispatchOne, hs, Bool.not_true, Bool.and_false]
      cases hq : args.output with
      | none => exact ⟨w, by simp⟩
      | some fmts =>
          obtain ⟨w', hw⟩ := foldlM_writes_ok faults args sk sym p hl fmts w
          exact ⟨w', by simp [hw]⟩

theorem consumerRun_all_ok (faults : Faults) (redis_enabled : Bool)
    (args : Args) (ts : List EventTuple) (hs : faults.store_ok = true)
    (hl : ∀ fmt, faults.line_ok fmt = true) :
    ∀ w : Writers,
      (consumerRun faults redis_enabled args ts w).2.1 = ts ∧
      (consumerRun faults redis_enabled args ts w).2.2 = false := by
  induction ts with
  | nil => intro w; exact ⟨rfl, rfl⟩
  | cons t ts ih =>
      intro w
      obtain ⟨w', hw⟩ := dispatchOne_ok faults redis_enabled args t w hs hl
      obtain ⟨h1, h2⟩ := ih w'
      simp [consumerRun, hw, h1, h2]

/-! ## Claim C1 -/

theorem flush_all_buffers_clears (args : Args) (ws : Writers) :
    ∀ p ∈ flush_all_buffers args ws, ∀ cs : ColState,
      p.2 = WState.col cs → cs.buffer = [] := by
  intro p hp cs hcs
  obtain ⟨q0, hq0m, hq0e⟩ := List.mem_map.mp hp
  cases h2 : q0.2 with
  | line ls =>
      rw [h2] at hq0e
      rw [← hq0e] at hcs
      simp at hcs
  | col cs0 =>
      rw [h2] at hq0e
      rw [← hq0e] at hcs
      simp only at hcs
      injection hcs with hcs
      rw [← hcs]
      exact flush_buffer_clears _ _ _ _ _ _

/-- C1: the shutdown sequence runs its steps in strict order — cancel
the producers, wait for the queue join, cancel and await the consumer,
then flush all buffers — and, provided the unfinished-task count
matches the enqueued items, the drain processes exactly the enqueued
tuples in order (no loss, no duplication), join resolves with zero
unfinished items, and after the final flush no columnar buffer is left
unflushed. -/
theorem C1_shutdown_sequence (redis_enabled : Bool) (args : Args)
    (q : QueueState) (w : Writers)
    (hout : args.output.isSome = true)
    (hu : q.unfinished = q.items.length) :
    (shutdownRun redis_enabled args q w).1 =
      [.cancel_producers, .queue_join, .cancel_consumer, .await_consumer,
       .flush_all] ∧
    (shutdownRun redis_enabled args q w).2.2.1 = q.items ∧
    (shutdownRun redis_enabled args q w).2.2.2 = 0 ∧
    (∀ p ∈ (shutdownRun redis_enabled args q w).2.1, ∀ cs : ColState,
       p.2 = WState.col cs → cs.buffer = []) := by
  have hc := consumerRun_all_ok {} redis_enabled args q.items rfl
    (fun _ => rfl) w
  refine ⟨?_, ?_, ?_, ?_⟩
  · simp [shutdownRun, hout]
  · simp [shutdownRun, hc.1]
  · simp [shutdownRun, hc.1, hu]
  · intro p hp cs hcs
    simp only [shutdownRun, hout, if_pos] at hp
    exact flush_all_buffers_clears args _ p hp cs hcs

/-- A concrete trade tuple used by witnesses and counterexamples. -/
def tupA : EventTuple := ⟨"trades", "BTCUSDT", sampleA⟩

/-- A second concrete trade tuple. -/
def tupB : EventTuple := ⟨"trades", "BTCUSDT", sampleB⟩

/-- Witness for C1: one enqueued tuple, parquet output, and a columnar
writer holding an unflushed record at shutdown. -/
theorem C1_shutdown_sequence_witness :
    (({ output := some [Fmt.parquet] } : Args).output.isSome = true) ∧
    ((⟨[tupA], 1⟩ : QueueState).unfinished =
      (⟨[tupA], 1⟩ : QueueState).items.length) ∧
    ((shutdownRun false { output := some [Fmt.parquet] } ⟨[tupA], 1⟩
        [(⟨"trades", "btcusdt", Fmt.parquet⟩,
          WState.col { buffer := [sampleA] })]).1 =
      [.cancel_producers, .queue_join, .cancel_consumer, .await_consumer,
       .flush_all] ∧
     (shutdownRun false { output := some [Fmt.parquet] } ⟨[tupA], 1⟩
        [(⟨"trades", "btcusdt", Fmt.parquet⟩,
          WState.col { buffer := [sampleA] })]).2.2.1 =
       (⟨[tupA], 1⟩ : QueueState).items ∧
     (shutdownRun false { output := some [Fmt.parquet] } ⟨[tupA], 1⟩
        [(⟨"trades", "btcusdt", Fmt.parquet⟩,
          WState.col { buffer := [sampleA] })]).2.2.2 = 0 ∧
     (∀ p ∈ (shutdownRun false { output := some [Fmt.parquet] } ⟨[tupA], 1⟩
        [(⟨"trades", "btcusdt", Fmt.parquet⟩,
          WState.col { buffer := [sampleA] })]).2.1, ∀ cs : ColState,
        p.2 = WState.col cs → cs.buffer = [])) :=
  ⟨rfl, rfl,
   C1_shutdown_sequence false { output := some [Fmt.parquet] } ⟨[tupA], 1⟩
     [(⟨"trades", "btcusdt", Fmt.parquet⟩, WState.col { buffer := [sampleA] })]
     rfl rfl⟩

/-! ## Claim C2 -/

/-- C2 counterexample: with the store sink raising on the first tuple,
the dispatcher does not continue to the next tuple and the file sink is
never attempted — the uncaught exception (only CancelledError is
caught) kills the consumer: no tuple is marked processed, the loop
halts, and the writers map stays empty. -/
theorem C2_counterexample :
    consumerRun { store_ok := false } true
      { output := some [Fmt.json], output_dir := "data" } [tupA, tupB] [] =
      ([], [], true) ∧
    ([] : List EventTuple) ≠ [tupA, tupB] := by
  refine ⟨rfl, by decide⟩

/-- C2 amended: only a columnar flush failure is isolated — it is
caught inside flush_buffer, so the dispatcher processes every tuple
and does not halt; an exception from the store append kills the
dispatcher before any file sink runs for that tuple, and an exception
from a line-format file write likewise kills the dispatcher: in both
cases no tuple is marked processed from the failing one on. -/
theorem C2_amended :
    (∀ (redis_enabled : Bool) (args : Args) (ts : List EventTuple)
       (w : Writers),
       (consumerRun { col_flush_ok := false } redis_enabled args ts w).2.1 =
         ts ∧
       (consumerRun { col_flush_ok := false } redis_enabled args ts w).2.2 =
         false) ∧
    (∀ (args : Args) (t : EventTuple) (rest : List EventTuple) (w : Writers),
       consumerRun { store_ok := false } true args (t :: rest) w =
         (w, [], true)) ∧
    (∀ (dir : String) (t : EventTuple) (rest : List EventTuple) (w : Writers),
       consumerRun { line_ok := fun _ => false } false
         { output := some [Fmt.json], output_dir := dir } (t :: rest) w =
         (w, [], true)) := by
  refine ⟨?_, ?_, ?_⟩
  · intro redis_enabled args ts w
    exact consumerRun_all_ok { col_flush_ok := false } redis_enabled args ts
      rfl (fun _ => rfl) w
  · intro args t rest w
    cases t
    rfl
  · intro dir t rest w
    cases t
    rfl

end BinanceDI
